import Mathlib

/-!
# Verification of the go-filecache on-disk entry codec, cache item, and pool

Shallow embedding of the `file` entry codec (`newFile`/`Create`/`SetData`/
`GetData`/`SetExpiresAt`/`GetExpiresAt`/`SignatureMatched`), the `filecache`
`Item` layer (`set`/`get`/`isExpired`/`expiresAt`/`keyToFileName`) and the
`Pool` layer (`GetItem`/`HasItem`/`Put`/`Clear`).

A file on disk is a list of bytes (`List Nat`, values < 256 where relevant).
`os.File.WriteAt` past the end of the file zero-fills the gap; `ReadAt`
returns the available bytes together with `io.EOF` on a short read.  SHA-1 is
kept abstract as a parameter `hash : List Nat → List Nat` (the Go code hashes
incrementally; the digest fed in is the concatenation of all chunks written,
which the embedding tracks explicitly in the `fed` accumulator); theorems that
need a concrete digest instantiate `hash` with `mockHash`.
-/

namespace Filecache

/-- Bytes of a file, a reader source, or a writer sink. -/
abbrev Bytes := List Nat

/-- Typed error kinds of the codec / item / pool layers. -/
inductive Err where
  /-- `setSignature`: "wrong signature length" -/
  | wrongSignatureLength
  /-- `setDataSHA1`: "wrong hash length" -/
  | wrongHashLength
  /-- `getData`: "data hashes mismatched" -/
  | checksumMismatch
  /-- `GetExpiresAt`: "value was not set" -/
  | expirationNotSet
  /-- item-level `ErrFileOpening` -/
  | fileOpen
  /-- item-level `ErrFileReading` (wraps the codec read/checksum failure) -/
  | fileRead
  /-- item-level `ErrFileWriting` -/
  | fileWrite
  /-- item-level `ErrExpirationDataNotAvailable` -/
  | expirationDataNotAvailable
deriving DecidableEq

/-- `2 ^ 64`, the modulus of Go's `uint64`. -/
def pow64 : Nat := 2 ^ 64

/-- Go `uint64(x)` for a signed value: reduction modulo `2^64`. -/
def toUint64 (x : Int) : Nat := (x % (pow64 : Int)).toNat

/-- Go `int64(n)` for a `uint64` value: two's-complement reinterpretation. -/
def toInt64 (n : Nat) : Int :=
  if n % pow64 < 2 ^ 63 then (n % pow64 : Int) else (n % pow64 : Int) - (pow64 : Int)

/-- Go integer division (`/` on `int64`) truncates toward zero. -/
def goDiv (a b : Int) : Int :=
  Int.sign a * Int.sign b * ((a.natAbs / b.natAbs : Nat) : Int)

/-- `DefaultSignature = FSignature("#/CACHE ")`, the bytes
`35, 47, 67, 65, 67, 72, 69, 32` (file.go). -/
def DefaultSignature : Bytes := [35, 47, 67, 65, 67, 72, 69, 32]

/-- `os.File.WriteAt f off d`: overwrite `d` at offset `off`, zero-filling any
gap between the current end of file and `off` (POSIX `pwrite` semantics). -/
def writeAt (f : Bytes) (off : Nat) (d : Bytes) : Bytes :=
  (f ++ List.replicate (off - f.length) 0).take off ++ d ++ f.drop (off + d.length)

/-- `os.File.ReadAt` into an `n`-byte buffer at offset `off`: the bytes
actually read (may be fewer than `n`; `io.EOF` is then reported). -/
def readAt (f : Bytes) (off n : Nat) : Bytes := (f.drop off).take n

/-- A fixed-size Go buffer of length `n` after a short `ReadAt`: the bytes
read followed by the untouched zero bytes of `make([]byte, n)`. -/
def padTo (bs : Bytes) (n : Nat) : Bytes := bs ++ List.replicate (n - bs.length) 0

/-- `binary.LittleEndian.Uint64`: byte 0 is least significant. -/
def leDecode (bs : Bytes) : Nat := bs.foldr (fun b acc => b % 256 + 256 * acc) 0

/-- `binary.LittleEndian.PutUint64` into an 8-byte buffer. -/
def leEncode64 (v : Nat) : Bytes := (List.range 8).map (fun i => v / 256 ^ i % 256)

/-- `file.getSignature`: reads up to 8 bytes at offset 0 and truncates the
buffer to the bytes actually read (`buf = buf[0:n]`). -/
def getSignature (f : Bytes) : Bytes := readAt f 0 8

/-- `file.SignatureMatched`: byte-for-byte comparison of the stored signature
field against the codec's configured signature `sig`. -/
def SignatureMatched (sig f : Bytes) : Bool := getSignature f == sig

/-- `file.setSignature`: rejects any signature whose length differs from the
configured field length 8, otherwise writes it at offset 0. -/
def setSignature (f sig : Bytes) : Except Err Bytes :=
  if sig.length = 8 then .ok (writeAt f 0 sig) else .error .wrongSignatureLength

/-- `file.getExpiresAtUnixMs`: an 8-byte read at offset 8 into a zeroed
buffer (a short read keeps the zero tail), decoded little-endian. -/
def getExpiresAtUnixMs (f : Bytes) : Nat := leDecode (padTo (readAt f 8 8) 8)

/-- `file.setExpiresAtUnixMs`: writes the 8 little-endian bytes of `ts` at
offset 8. -/
def setExpiresAtUnixMs (f : Bytes) (ts : Nat) : Bytes := writeAt f 8 (leEncode64 ts)

/-- `file.GetExpiresAt`: the reconstructed instant
`time.Unix(0, int64(ms*uint64(time.Millisecond)))` in Unix nanoseconds,
paired with the "value was not set" error when the stored field is 0. -/
def GetExpiresAt (f : Bytes) : Int × Option Err :=
  let ms := getExpiresAtUnixMs f
  (toInt64 (ms * 1000000 % pow64), if ms = 0 then some .expirationNotSet else none)

/-- `file.SetExpiresAt`: stores `uint64(t.UnixNano() / int64(time.Millisecond))`;
`tNs` is `t.UnixNano()`. -/
def SetExpiresAt (f : Bytes) (tNs : Int) : Bytes :=
  setExpiresAtUnixMs f (toUint64 (goDiv tNs 1000000))

/-- `file.getDataSHA1`: a 20-byte read at offset 64 into a zeroed buffer
(`n` and `io.EOF` are ignored, so a short read keeps the zero tail). -/
def getDataSHA1 (f : Bytes) : Bytes := padTo (readAt f 64 20) 20

/-- `file.setDataSHA1`: rejects a digest whose length differs from the field
length 20, otherwise writes it at offset 64. -/
def setDataSHA1 (f h : Bytes) : Except Err Bytes :=
  if h.length = 20 then .ok (writeAt f 64 h) else .error .wrongHashLength

/-- The abstract SHA-1: digest of a full byte sequence. -/
abbrev Hash := Bytes → Bytes

/-- The loop of `file.setData`: reads the source 32 bytes at a time
(`rwBufferSize`), writes each chunk at the running offset, feeds it to the
incremental digest (`fed` is the concatenation of all bytes fed so far), and
on `io.EOF` stores the digest via `setDataSHA1`. -/
def setDataGo (hash : Hash) (f fed : Bytes) (off : Nat) (src : Bytes) :
    Except Err Bytes :=
  if h : src = [] then setDataSHA1 f (hash fed)
  else
    setDataGo hash (writeAt f off (src.take 32)) (fed ++ src.take 32)
      (off + (src.take 32).length) (src.drop 32)
termination_by src.length
decreasing_by
  simp only [List.length_drop]
  have : 0 < src.length := List.length_pos.mpr h
  omega

/-- `file.SetData` / `file.setData`: stream `src` into the Data region at
offset 84 and store the digest of the streamed bytes. -/
def SetData (hash : Hash) (f src : Bytes) : Except Err Bytes :=
  setDataGo hash f [] 84 src

/-- The loop of `file.getData`: reads 32-byte chunks from the running offset,
writes each chunk to the sink (and the incremental digest), and stops after
the chunk on which `ReadAt` reported `io.EOF`.  Returns every byte handed to
the sink (the same sequence is fed to the digest). -/
def getDataGo (f : Bytes) (off : Nat) (acc : Bytes) : Bytes :=
  if f.length < off + 32 then acc ++ readAt f off 32
  else getDataGo f (off + 32) (acc ++ readAt f off 32)
termination_by f.length - off
decreasing_by omega

/-- `file.GetData` / `file.getData`: the bytes delivered to the sink, paired
with the checksum verdict — `checksumMismatch` exactly when the digest of the
streamed bytes differs from the stored `DataChecksum`. -/
def GetData (hash : Hash) (f : Bytes) : Bytes × Option Err :=
  let out := getDataGo f 84 []
  (out, if hash out == getDataSHA1 f then none else some .checksumMismatch)

/-- `file.Create`: `O_RDWR|O_CREATE|O_TRUNC` (so the file starts empty), then
`setSignature` with the configured signature (`nil` selects
`DefaultSignature`), then `SetData` of an empty payload. -/
def Create (hash : Hash) (signature : Option Bytes) : Except Err Bytes :=
  let sig := signature.getD DefaultSignature
  match setSignature [] sig with
  | .error e => .error e
  | .ok f1 => SetData hash f1 []

/-! ## Byte-level lemmas about `writeAt` -/

/-- The zero-padded prefix that `writeAt` keeps in front of the written data. -/
def headPad (f : Bytes) (off : Nat) : Bytes :=
  (f ++ List.replicate (off - f.length) 0).take off

theorem writeAt_parts (f : Bytes) (off : Nat) (d : Bytes) :
    writeAt f off d = headPad f off ++ d ++ f.drop (off + d.length) := rfl

theorem headPad_eq (f : Bytes) (off : Nat) :
    headPad f off = f.take off ++ List.replicate (off - f.length) 0 := by
  rw [headPad, List.take_append_eq_append_take, List.take_replicate]
  congr 1
  have h1 : min (off - f.length) (off - f.length) = off - f.length := by omega
  rw [h1]

theorem length_headPad (f : Bytes) (off : Nat) : (headPad f off).length = off := by
  simp [headPad, List.length_take, List.length_append, List.length_replicate]
  omega

theorem length_writeAt (f : Bytes) (off : Nat) (d : Bytes) :
    (writeAt f off d).length = max (off + d.length) f.length := by
  simp [writeAt_parts, List.length_append, length_headPad, List.length_drop]
  omega

theorem drop_writeAt_self (f : Bytes) (off : Nat) (d : Bytes) :
    (writeAt f off d).drop off = d ++ f.drop (off + d.length) := by
  rw [writeAt_parts, List.append_assoc, List.drop_append_eq_append_drop,
    length_headPad, List.drop_of_length_le (by rw [length_headPad]),
    Nat.sub_self, List.drop_zero, List.nil_append]

theorem take_writeAt_of_le (f : Bytes) (off : Nat) (d : Bytes) (k : Nat)
    (h : k ≤ off) : (writeAt f off d).take k = (headPad f off).take k := by
  rw [writeAt_parts, List.append_assoc, List.take_append_eq_append_take,
    length_headPad, Nat.sub_eq_zero_of_le h, List.take_zero, List.append_nil]

theorem headPad_take (f : Bytes) (a b : Nat) (h : b ≤ a) :
    (headPad f a).take b = headPad f b := by
  rw [headPad_eq, headPad_eq, List.take_append_eq_append_take,
    List.take_take, List.take_replicate]
  congr 2
  · omega
  · simp [List.length_take]; omega

theorem take_writeAt_front (f : Bytes) (off : Nat) (d : Bytes) (k : Nat)
    (hk : k ≤ off) (hf : k ≤ f.length) : (writeAt f off d).take k = f.take k := by
  rw [take_writeAt_of_le f off d k hk, headPad_take f off k hk, headPad_eq,
    Nat.sub_eq_zero_of_le hf, List.replicate_zero, List.append_nil]

theorem drop_writeAt_of_le (f : Bytes) (off : Nat) (d : Bytes) (m : Nat)
    (h : off + d.length ≤ m) : (writeAt f off d).drop m = f.drop m := by
  rw [writeAt_parts, List.append_assoc, List.drop_append_eq_append_drop,
    List.drop_of_length_le (by rw [length_headPad]; omega), List.nil_append,
    length_headPad, List.drop_append_eq_append_drop,
    List.drop_of_length_le (by omega), List.nil_append, List.drop_drop]
  congr 1
  omega

theorem drop_take_writeAt_self (f : Bytes) (off : Nat) (d : Bytes) :
    ((writeAt f off d).drop off).take d.length = d := by
  rw [drop_writeAt_self, List.take_append_eq_append_take, Nat.sub_self,
    List.take_zero, List.append_nil, List.take_of_length_le (Nat.le_refl _)]

theorem writeAt_writeAt (f : Bytes) (off : Nat) (a b : Bytes) :
    writeAt (writeAt f off a) (off + a.length) b = writeAt f off (a ++ b) := by
  have hg : (writeAt f off a).length = max (off + a.length) f.length :=
    length_writeAt f off a
  have hpad : headPad (writeAt f off a) (off + a.length) = headPad f off ++ a := by
    rw [headPad_eq, Nat.sub_eq_zero_of_le (by rw [hg]; omega), List.replicate_zero,
      List.append_nil]
    rw [writeAt_parts, List.append_assoc, List.take_append_eq_append_take,
      List.take_of_length_le (by rw [length_headPad]; omega), length_headPad,
      Nat.add_sub_cancel_left, List.take_append_eq_append_take,
      List.take_of_length_le (Nat.le_refl _), Nat.sub_self, List.take_zero,
      List.append_nil]
  have hdrop : (writeAt f off a).drop (off + a.length + b.length) =
      f.drop (off + a.length + b.length) :=
    drop_writeAt_of_le f off a _ (by omega)
  rw [writeAt_parts, hpad, hdrop, writeAt_parts, List.length_append]
  simp [List.append_assoc, Nat.add_assoc]

/-! ## Closed forms of the streaming loops

The 32-byte chunked loops of `setData`/`getData` are equivalent to a single
write of the whole payload at offset 84 (respectively a single read of the
whole Data region), with the digest taken over the full payload — the
incremental hash sees exactly the concatenation of the chunks. -/

theorem setDataGo_eq_of_ne (hash : Hash) :
    ∀ (n : Nat) (src : Bytes), src.length ≤ n → src ≠ [] →
      ∀ (f fed : Bytes) (off : Nat),
        setDataGo hash f fed off src =
          setDataSHA1 (writeAt f off src) (hash (fed ++ src)) := by
  intro n
  induction n with
  | zero =>
    intro src hlen hne
    cases src with
    | nil => exact absurd rfl hne
    | cons b bs => simp at hlen
  | succ n ih =>
    intro src hlen hne f fed off
    rw [setDataGo, dif_neg hne]
    by_cases hd : src.drop 32 = []
    · have hle : src.length ≤ 32 := by
        have := List.length_drop 32 src
        rw [hd] at this
        simp at this
        omega
      rw [hd, setDataGo, dif_pos rfl, List.take_of_length_le hle]
    · have hgt : 32 < src.length := by
        have := List.length_drop 32 src
        rcases Nat.lt_or_ge 32 src.length with h | h
        · exact h
        · exact absurd (List.drop_of_length_le h) hd
      rw [ih (src.drop 32) (by rw [List.length_drop]; omega) hd]
      rw [writeAt_writeAt, List.take_append_drop, List.append_assoc,
        List.take_append_drop]

theorem setDataSHA1_writeAt_nil (f h : Bytes) :
    setDataSHA1 (writeAt f 84 []) h = setDataSHA1 f h := by
  unfold setDataSHA1
  by_cases hl : h.length = 20
  · rw [if_pos hl, if_pos hl]
    congr 1
    rw [writeAt_parts (writeAt f 84 []) 64 h, writeAt_parts f 64 h]
    have h1 : (writeAt f 84 []).drop (64 + h.length) = f.drop (64 + h.length) := by
      apply drop_writeAt_of_le
      simp
      omega
    have h2 : headPad (writeAt f 84 []) 64 = headPad f 64 := by
      rw [headPad_eq, Nat.sub_eq_zero_of_le (by rw [length_writeAt]; omega),
        List.replicate_zero, List.append_nil,
        take_writeAt_of_le f 84 [] 64 (by omega), headPad_take f 84 64 (by omega)]
    rw [h1, h2]
  · rw [if_neg hl, if_neg hl]

/-- `setData` writes the payload contiguously at offset 84 (without
truncating anything past it) and stores the digest of the payload at 64. -/
theorem SetData_eq (hash : Hash) (f src : Bytes) :
    SetData hash f src = setDataSHA1 (writeAt f 84 src) (hash src) := by
  by_cases hs : src = []
  · subst hs
    rw [SetData, setDataGo, dif_pos rfl]
    exact (setDataSHA1_writeAt_nil f _).symm
  · rw [SetData, setDataGo_eq_of_ne hash src.length src (Nat.le_refl _) hs,
      List.nil_append]

theorem getDataGo_eq (f : Bytes) :
    ∀ (n off : Nat), f.length - off ≤ n →
      ∀ acc, getDataGo f off acc = acc ++ f.drop off := by
  intro n
  induction n with
  | zero =>
    intro off hoff acc
    rw [getDataGo, if_pos (by omega), readAt,
      List.take_of_length_le (by rw [List.length_drop]; omega)]
  | succ n ih =>
    intro off hoff acc
    rw [getDataGo]
    by_cases hlt : f.length < off + 32
    · rw [if_pos hlt, readAt,
        List.take_of_length_le (by rw [List.length_drop]; omega)]
    · rw [if_neg hlt, ih (off + 32) (by omega), List.append_assoc]
      congr 1
      rw [readAt, ← List.drop_drop, List.take_append_drop]

/-- `getData` hands the whole Data region (offset 84 to EOF) to the sink and
then reports `checksumMismatch` exactly when the digest of those bytes
differs from the stored `DataChecksum`. -/
theorem GetData_eq (hash : Hash) (f : Bytes) :
    GetData hash f =
      (f.drop 84,
        if hash (f.drop 84) == getDataSHA1 f then none
        else some Err.checksumMismatch) := by
  simp only [GetData]
  rw [getDataGo_eq f f.length 84 (by omega), List.nil_append]

/-! ## Cache Item layer (item.go)

An item's backing file is modelled as `Option Bytes`: `none` when no regular
file exists at the item's path (`isHit` is false), `some f` otherwise.
Filesystem opens and removals succeed in this model; the injectable failure
needed by claim C9 is modelled explicitly at the `Put` level. -/

/-- A concrete stand-in digest used to evaluate the abstract hash at concrete
inputs: always 20 bytes, and distinct payloads of length < 20 get distinct
digests. -/
def mockHash : Hash := fun x => (x ++ List.replicate 20 0).take 20

/-- `Item.isHit`: a regular file exists at the item's path. -/
def isHit (st : Option Bytes) : Bool := st.isSome

/-- `Item.get`: open read-write (`ErrFileOpening` when the file is missing),
stream the Data region to the sink via `GetData`, and wrap a codec failure as
`ErrFileReading`.  Returns the bytes handed to the sink and the error. -/
def itemGet (hash : Hash) (st : Option Bytes) : Bytes × Option Err :=
  match st with
  | none => ([], some .fileOpen)
  | some f =>
    ((GetData hash f).1, ((GetData hash f).2).map (fun _ => .fileRead))

/-- `Item.openOrCreateFile`: open the existing regular file, or `file.Create`
a fresh one (signature `nil` selects the default); a create failure is
wrapped as `ErrFileWriting`. -/
def openOrCreateFile (hash : Hash) (st : Option Bytes) : Except Err Bytes :=
  match st with
  | some f => .ok f
  | none =>
    match Create hash none with
    | .error _ => .error .fileWrite
    | .ok f => .ok f

/-- `Item.set`: open-or-create, then `SetData`; codec write failures are
wrapped as `ErrFileWriting`.  Returns the new contents of the backing file. -/
def itemSet (hash : Hash) (st : Option Bytes) (src : Bytes) : Except Err Bytes :=
  match openOrCreateFile hash st with
  | .error e => .error e
  | .ok f =>
    match SetData hash f src with
    | .error _ => .error .fileWrite
    | .ok f2 => .ok f2

/-- `Item.expiresAt`: best-effort read; `none` on any failure (missing file,
or the codec's "value was not set").  The instant is in Unix nanoseconds. -/
def itemExpiresAt (st : Option Bytes) : Option Int :=
  match st with
  | none => none
  | some f =>
    match (GetExpiresAt f).2 with
    | some _ => none
    | none => some (GetExpiresAt f).1

/-- `Item.isExpired`: expired iff a readable expiration instant is strictly
earlier than now; otherwise `(false, ErrExpirationDataNotAvailable)`. -/
def itemIsExpired (st : Option Bytes) (nowNs : Int) : Bool × Option Err :=
  match itemExpiresAt st with
  | some t => (decide (t < nowNs), none)
  | none => (false, some .expirationDataNotAvailable)

/-- `Item.setExpiresAt`: open-or-create, then write the expiration field. -/
def itemSetExpiresAt (hash : Hash) (st : Option Bytes) (tNs : Int) :
    Except Err Bytes :=
  match openOrCreateFile hash st with
  | .error e => .error e
  | .ok f => .ok (SetExpiresAt f tNs)

/-! ## Cache Pool layer (pool.go) -/

/-- `Pool.GetItem`: constructs the item and, when it exists and reports
expired, lazily deletes the backing file (the `DeleteItem` result is
discarded).  Returns the state of the backing file afterwards. -/
def poolGetItem (st : Option Bytes) (nowNs : Int) : Option Bytes :=
  if isHit st then
    if (itemIsExpired st nowNs).1 then none else st
  else st

/-- `Pool.HasItem`: `GetItem(key).IsHit()`, including its eviction side
effect. -/
def poolHasItem (st : Option Bytes) (nowNs : Int) : Bool :=
  isHit (poolGetItem st nowNs)

/-- `Pool.Put`: `item.Set(from)` first, then `item.SetExpiresAt(expiresAt)`;
each failure is returned immediately and nothing is rolled back.
`expWriteFails` injects an underlying filesystem failure into the expiration
write (the data write has already been persisted at that point). -/
def poolPut (hash : Hash) (st : Option Bytes) (src : Bytes) (tNs : Int)
    (expWriteFails : Bool) : Option Bytes × Option Err :=
  match itemSet hash st src with
  | .error e => (st, some e)
  | .ok f1 =>
    if expWriteFails then (some f1, some .fileWrite)
    else
      match itemSetExpiresAt hash (some f1) tNs with
      | .error e => (some f1, some e)
      | .ok f2 => (some f2, none)

/-- One immediate entry of the pool directory as seen by `Clear`'s walk:
its name, its bytes, and whether `os.Remove` on it fails. -/
structure DirEntry where
  name : Nat
  content : Bytes
  rmFails : Bool
deriving DecidableEq

/-- The walk of `Pool.Clear` (`walkOverCacheFiles` + the removal callback):
each entry is opened read-only and removed only when `SignatureMatched` holds
for the pool's signature; a failed removal leaves the file in place and
overwrites `lastErr` (last-error-wins). `kept` accumulates the surviving
files in directory order. -/
def clearGo (sig : Bytes) (dir kept : List DirEntry) (lastErr : Option Nat) :
    List DirEntry × Option Nat :=
  match dir with
  | [] => (kept, lastErr)
  | e :: rest =>
    if SignatureMatched sig e.content then
      if e.rmFails then clearGo sig rest (kept ++ [e]) (some e.name)
      else clearGo sig rest kept lastErr
    else clearGo sig rest (kept ++ [e]) lastErr

/-- `Pool.Clear`: the surviving directory entries, the boolean success flag,
and the returned error (`none` on full success). -/
def poolClear (sig : Bytes) (dir : List DirEntry) :
    List DirEntry × Bool × Option Nat :=
  ((clearGo sig dir [] none).1, (clearGo sig dir [] none).2.isNone,
    (clearGo sig dir [] none).2)

/-- The entries `Clear` leaves untouched: signature mismatch, or removal
failed. -/
def clearKept (sig : Bytes) (dir : List DirEntry) : List DirEntry :=
  dir.filter (fun e => !(SignatureMatched sig e.content && !e.rmFails))

/-- The cache members whose removal fails. -/
def clearFails (sig : Bytes) (dir : List DirEntry) : List DirEntry :=
  dir.filter (fun e => SignatureMatched sig e.content && e.rmFails)

/-- The name of the last entry of the list, if any (last-error-wins). -/
def lastErrOf : List DirEntry → Option Nat
  | [] => none
  | e :: rest =>
    match lastErrOf rest with
    | some n => some n
    | none => some e.name

/-! ## Key-to-filename mapping (item.go)

`keyToFileName` is `hex.EncodeToString(i.hashing.Sum([]byte(key)))` where
`i.hashing` is a fresh `sha1.New()` that nothing was ever written to.  Go's
`hash.Hash.Sum(b)` APPENDS the current digest to `b`, so the encoded bytes
are `key ++ d` where `d` is the 20-byte SHA-1 digest of the empty message
(kept abstract as a parameter).  `hex.EncodeToString` is modelled at the
nibble level: each byte becomes its two hex nibbles, so the encoded string
has exactly twice as many characters as there are bytes. -/

/-- `hex.EncodeToString`, modelled as the list of nibble values. -/
def hexNibbles (bs : Bytes) : List Nat :=
  bs.flatMap (fun b => [b % 256 / 16, b % 256 % 16])

/-- `Item.keyToFileName`: hex of `key ++ emptyDigest` (Go `Sum` appends the
digest of the empty hash state to its argument). -/
def keyToFileName (emptyDigest key : Bytes) : List Nat :=
  hexNibbles (key ++ emptyDigest)

/-! ## Field read-back lemmas -/

theorem length_leEncode64 (v : Nat) : (leEncode64 v).length = 8 := by
  simp [leEncode64]

theorem leDecode_leEncode64 (v : Nat) : leDecode (leEncode64 v) = v % pow64 := by
  have hr : List.range 8 = [0, 1, 2, 3, 4, 5, 6, 7] := by decide
  rw [leEncode64, hr]
  simp only [List.map_cons, List.map_nil, leDecode, List.foldr_cons, List.foldr_nil,
    pow64]
  norm_num
  omega

/-- Reading the expiration field back after writing it. -/
theorem getExpiresAt_set (f : Bytes) (ts : Nat) :
    getExpiresAtUnixMs (setExpiresAtUnixMs f ts) = ts % pow64 := by
  have h8 : (leEncode64 ts).length = 8 := length_leEncode64 ts
  rw [getExpiresAtUnixMs, setExpiresAtUnixMs, readAt]
  have := drop_take_writeAt_self f 8 (leEncode64 ts)
  rw [h8] at this
  rw [this, padTo, h8, Nat.sub_self, List.replicate_zero, List.append_nil,
    leDecode_leEncode64]

/-- The canonical freshly-written entry file:
signature (8) ++ reserved zeros (56) ++ digest (20) ++ payload. -/
theorem canon_drop84 (sig dig input : Bytes) (hs : sig.length = 8)
    (hd : dig.length = 20) :
    (sig ++ List.replicate 56 0 ++ dig ++ input).drop 84 = input := by
  have h1 : (sig ++ List.replicate 56 0 ++ dig).length = 84 := by
    simp [hs, hd]
  calc (sig ++ List.replicate 56 0 ++ dig ++ input).drop 84
      = ((sig ++ List.replicate 56 0 ++ dig) ++ input).drop
          (sig ++ List.replicate 56 0 ++ dig).length := by rw [h1]
    _ = input := List.drop_left _ _

theorem canon_sha (sig dig input : Bytes) (hs : sig.length = 8)
    (hd : dig.length = 20) :
    getDataSHA1 (sig ++ List.replicate 56 0 ++ dig ++ input) = dig := by
  have h1 : (sig ++ List.replicate 56 0).length = 64 := by simp [hs]
  have h2 : (sig ++ List.replicate 56 0 ++ dig ++ input).drop 64 = dig ++ input := by
    calc (sig ++ List.replicate 56 0 ++ dig ++ input).drop 64
        = ((sig ++ List.replicate 56 0) ++ (dig ++ input)).drop
            (sig ++ List.replicate 56 0).length := by
          rw [h1, List.append_assoc, List.append_assoc]
      _ = dig ++ input := List.drop_left _ _
  rw [getDataSHA1, readAt, h2, List.take_append_eq_append_take, hd, Nat.sub_self,
    List.take_zero, List.append_nil, List.take_of_length_le (by rw [hd]), padTo, hd,
    Nat.sub_self, List.replicate_zero, List.append_nil]

theorem canon_take8 (sig dig input : Bytes) (hs : sig.length = 8) :
    (sig ++ List.replicate 56 0 ++ dig ++ input).take 8 = sig := by
  rw [List.append_assoc, List.append_assoc, List.take_append_eq_append_take, hs,
    Nat.sub_self, List.take_zero, List.append_nil,
    List.take_of_length_le (by rw [hs])]

/-- `file.Create` succeeds and produces signature ++ 56 zero bytes ++ digest
of the empty payload. -/
theorem Create_ok (hash : Hash) (sigOpt : Option Bytes)
    (hs : (sigOpt.getD DefaultSignature).length = 8)
    (h20 : (hash []).length = 20) :
    Create hash sigOpt =
      .ok (sigOpt.getD DefaultSignature ++ List.replicate 56 0 ++ hash []) := by
  have hw : writeAt [] 0 (sigOpt.getD DefaultSignature) = sigOpt.getD DefaultSignature := by
    simp [writeAt]
  simp only [Create, setSignature, if_pos hs, hw]
  rw [SetData_eq, setDataSHA1_writeAt_nil, setDataSHA1, if_pos h20]
  congr 1
  rw [writeAt_parts, headPad_eq, List.take_of_length_le (by rw [hs]; omega), hs,
    List.drop_of_length_le (by rw [hs]; omega), List.append_nil]

/-- `setData` on the canonical 84-byte fresh header appends the payload and
replaces the digest. -/
theorem SetData_fresh (hash : Hash) (sig dig input : Bytes) (hs : sig.length = 8)
    (hd : dig.length = 20) (h20 : (hash input).length = 20) :
    SetData hash (sig ++ List.replicate 56 0 ++ dig) input =
      .ok (sig ++ List.replicate 56 0 ++ hash input ++ input) := by
  have hlen : (sig ++ List.replicate 56 0 ++ dig).length = 84 := by simp [hs, hd]
  rw [SetData_eq, setDataSHA1, if_pos h20]
  congr 1
  have h1 : writeAt (sig ++ List.replicate 56 0 ++ dig) 84 input =
      sig ++ List.replicate 56 0 ++ dig ++ input := by
    rw [writeAt_parts, headPad_eq, List.take_of_length_le (by rw [hlen]),
      hlen, Nat.sub_self, List.replicate_zero, List.append_nil,
      List.drop_of_length_le (by rw [hlen]; omega), List.append_nil]
  rw [h1, writeAt_parts]
  have h2 : (sig ++ List.replicate 56 0 ++ dig ++ input).drop (64 + (hash input).length)
      = input := by rw [h20]; exact canon_drop84 sig dig input hs hd
  have h3 : headPad (sig ++ List.replicate 56 0 ++ dig ++ input) 64 =
      sig ++ List.replicate 56 0 := by
    have h64 : (sig ++ List.replicate 56 0).length = 64 := by simp [hs]
    have hF : sig ++ List.replicate 56 0 ++ dig ++ input =
        (sig ++ List.replicate 56 0) ++ (dig ++ input) := by
      simp [List.append_assoc]
    rw [headPad_eq, Nat.sub_eq_zero_of_le (by simp [hs, hd]; omega),
      List.replicate_zero, List.append_nil, hF, List.take_append_eq_append_take,
      h64, Nat.sub_self, List.take_zero, List.append_nil,
      List.take_of_length_le (by rw [h64])]
  rw [h2, h3]

/-- `Item.set` on a missing file: create (signature + empty checksummed
payload) then write the payload. -/
theorem itemSet_fresh (hash : Hash) (input : Bytes) (h20a : (hash []).length = 20)
    (h20b : (hash input).length = 20) :
    itemSet hash none input =
      .ok (DefaultSignature ++ List.replicate 56 0 ++ hash input ++ input) := by
  simp only [itemSet, openOrCreateFile, Create_ok hash none (by decide) h20a,
    Option.getD_none]
  rw [SetData_fresh hash DefaultSignature (hash []) input (by decide) h20a h20b]

theorem mockHash_length (x : Bytes) : (mockHash x).length = 20 := by
  simp [mockHash]

/-! ## Claim theorems -/

/-- Claim C2: every entry file written by the codec has the fixed byte
layout: the 8-byte signature at offset 0 (default the ASCII bytes of
`"#/CACHE "`), the expiration as an unsigned 64-bit little-endian millisecond
timestamp at offset 8, the 20-byte digest at offset 64, and the payload from
offset 84 (with the 48 reserved bytes 16..63 zero on a fresh entry). -/
theorem claim_c2_layout :
    DefaultSignature = [35, 47, 67, 65, 67, 72, 69, 32] ∧
    DefaultSignature.length = 8 ∧
    (∀ v : Nat, (leEncode64 v).length = 8 ∧ leDecode (leEncode64 v) = v % pow64) ∧
    (∀ (hash : Hash) (sig input : Bytes) (ts : Nat),
      (∀ x, (hash x).length = 20) → sig.length = 8 →
      ∃ f0, Create hash (some sig) = .ok f0 ∧
        SetData hash f0 input =
          .ok (sig ++ List.replicate 56 0 ++ hash input ++ input) ∧
        setExpiresAtUnixMs (sig ++ List.replicate 56 0 ++ hash input ++ input) ts =
          sig ++ leEncode64 ts ++ List.replicate 48 0 ++ hash input ++ input) := by
  refine ⟨rfl, rfl, fun v => ⟨length_leEncode64 v, leDecode_leEncode64 v⟩, ?_⟩
  intro hash sig input ts h20 hs
  have hget : (some sig).getD DefaultSignature = sig := rfl
  have hco := Create_ok hash (some sig) (by rw [hget, hs]) (h20 [])
  rw [hget] at hco
  refine ⟨sig ++ List.replicate 56 0 ++ hash [], hco,
    SetData_fresh hash sig (hash []) input hs (h20 []) (h20 input), ?_⟩
  rw [setExpiresAtUnixMs, writeAt_parts, length_leEncode64]
  have hp : headPad (sig ++ List.replicate 56 0 ++ hash input ++ input) 8 = sig := by
    rw [headPad_eq, Nat.sub_eq_zero_of_le (by simp [hs]),
      List.replicate_zero, List.append_nil, canon_take8 sig _ input hs]
  have hd16 : (sig ++ List.replicate 56 0 ++ hash input ++ input).drop 16 =
      List.replicate 48 0 ++ hash input ++ input := by
    have hFa : sig ++ List.replicate 56 0 ++ hash input ++ input =
        sig ++ (List.replicate 56 0 ++ (hash input ++ input)) := by
      simp [List.append_assoc]
    rw [hFa, List.drop_append_eq_append_drop, hs,
      List.drop_of_length_le (by rw [hs]; omega), List.nil_append,
      List.drop_append_eq_append_drop, List.drop_replicate, List.length_replicate]
    norm_num
  rw [hp, hd16]
  simp [List.append_assoc]

/-- Witness for C2 at a concrete hash, signature, payload and timestamp. -/
theorem claim_c2_layout_witness :
    ∃ f0, Create mockHash (some DefaultSignature) = .ok f0 ∧
      SetData mockHash f0 [7] =
        .ok (DefaultSignature ++ List.replicate 56 0 ++ mockHash [7] ++ [7]) ∧
      setExpiresAtUnixMs
          (DefaultSignature ++ List.replicate 56 0 ++ mockHash [7] ++ [7]) 3 =
        DefaultSignature ++ leEncode64 3 ++ List.replicate 48 0 ++
          mockHash [7] ++ [7] :=
  claim_c2_layout.2.2.2 mockHash DefaultSignature [7] 3 mockHash_length (by decide)

/-- Claim C5: `Create` writes the configured signature and an empty,
checksummed payload, so a freshly created entry reports
`SignatureMatched = true` and `getData` of the empty payload passes checksum
verification even before any further `setData` call. -/
theorem claim_c5_create (hash : Hash) (sigOpt : Option Bytes)
    (h20 : (hash []).length = 20)
    (hs : (sigOpt.getD DefaultSignature).length = 8) :
    ∃ F, Create hash sigOpt = .ok F ∧
      SignatureMatched (sigOpt.getD DefaultSignature) F = true ∧
      GetData hash F = ([], none) := by
  have hF : sigOpt.getD DefaultSignature ++ List.replicate 56 0 ++ hash [] =
      sigOpt.getD DefaultSignature ++ List.replicate 56 0 ++ hash [] ++ [] := by
    simp
  refine ⟨_, Create_ok hash sigOpt hs h20, ?_, ?_⟩
  · rw [SignatureMatched, getSignature, readAt, List.drop_zero, hF,
      canon_take8 _ (hash []) [] hs]
    simp
  · rw [GetData_eq, hF, canon_drop84 _ (hash []) [] hs h20,
      canon_sha _ (hash []) [] hs h20]
    simp

/-- Witness for C5 at the concrete hash and the default signature. -/
theorem claim_c5_create_witness :
    ∃ F, Create mockHash none = .ok F ∧
      SignatureMatched ((none : Option Bytes).getD DefaultSignature) F = true ∧
      GetData mockHash F = ([], none) :=
  claim_c5_create mockHash none (mockHash_length []) (by decide)

/-- The entry file produced by `Item.Set` of payload `[1, 2]` on a missing
file (fresh create). -/
def c1entry1 : Bytes :=
  DefaultSignature ++ List.replicate 56 0 ++ mockHash [1, 2] ++ [1, 2]

/-- The entry file produced by a subsequent `Item.Set` of the empty payload:
`Item.set` opens the existing file without truncating it, so the two old
payload bytes survive past offset 84 while the stored digest becomes the
digest of the empty payload. -/
def c1entry2 : Bytes :=
  DefaultSignature ++ List.replicate 56 0 ++ mockHash [] ++ [1, 2]

/-- Claim C1, evaluated at the failing input: `Set([1,2])` then `Set([])`
then `Get` delivers the stale bytes `[1, 2]` to the sink — not the empty
payload just set — and fails checksum verification (`ErrFileReading`
wrapping the mismatch), because `Item.set` never truncates an existing
file. -/
theorem claim_c1_roundtrip_eval :
    itemSet mockHash none [1, 2] = .ok c1entry1 ∧
    itemSet mockHash (some c1entry1) [] = .ok c1entry2 ∧
    itemGet mockHash (some c1entry2) = ([1, 2], some Err.fileRead) ∧
    ([1, 2] : Bytes) ≠ [] := by
  refine ⟨?_, ?_, ?_, by decide⟩
  · rw [itemSet_fresh mockHash [1, 2] (mockHash_length []) (mockHash_length [1, 2])]
    rfl
  · simp only [itemSet, openOrCreateFile]
    rw [SetData_eq, setDataSHA1, if_pos (mockHash_length [])]
    exact congrArg Except.ok (by decide)
  · simp only [itemGet, GetData_eq]
    decide

/-- Claim C4: `getData` always hands the whole Data region to the sink (even
when it then fails), returns success exactly when the computed digest equals
the stored one, `ChecksumMismatch` exactly when they differ; in particular a
post-`set` mutation of the Data bytes that changes the digest (the stored
checksum left stale) makes `get` fail with `ChecksumMismatch` after the sink
has received all corrupted bytes. -/
theorem claim_c4_corruption (hash : Hash) (f g : Bytes) :
    (GetData hash f).1 = f.drop 84 ∧
    ((GetData hash f).2 = none ↔ hash (f.drop 84) = getDataSHA1 f) ∧
    ((GetData hash f).2 = some Err.checksumMismatch ↔
      hash (f.drop 84) ≠ getDataSHA1 f) ∧
    (g.take 84 = f.take 84 → hash (g.drop 84) ≠ hash (f.drop 84) →
      getDataSHA1 f = hash (f.drop 84) →
      GetData hash g = (g.drop 84, some Err.checksumMismatch)) := by
  have hsha : ∀ x y : Bytes, x.take 84 = y.take 84 →
      getDataSHA1 x = getDataSHA1 y := by
    intro x y hxy
    have e : ∀ z : Bytes, (z.drop 64).take 20 = (z.take 84).drop 64 := by
      intro z
      rw [List.drop_take]
    rw [getDataSHA1, getDataSHA1, readAt, readAt, e x, e y, hxy]
  refine ⟨?_, ?_, ?_, ?_⟩
  · rw [GetData_eq]
  · rw [GetData_eq]
    by_cases hd : hash (f.drop 84) = getDataSHA1 f
    · simp [hd]
    · simp [hd]
  · rw [GetData_eq]
    by_cases hd : hash (f.drop 84) = getDataSHA1 f
    · simp [hd]
    · simp [hd]
  · intro ht hne hstored
    rw [GetData_eq, hsha g f ht, hstored]
    simp [hne]

/-- Witness for C4: a concrete entry whose two data bytes were replaced. -/
theorem claim_c4_corruption_witness :
    GetData mockHash (List.replicate 64 0 ++ mockHash [7] ++ [9, 9]) =
      ([9, 9], some Err.checksumMismatch) := by
  have h := (claim_c4_corruption mockHash (List.replicate 64 0 ++ mockHash [7] ++ [7])
    (List.replicate 64 0 ++ mockHash [7] ++ [9, 9])).2.2.2
    (by decide) (by decide) (by decide)
  exact h.trans (by decide)

theorem length_hexNibbles : ∀ bs : Bytes, (hexNibbles bs).length = 2 * bs.length
  | [] => rfl
  | b :: bs => by
    have ih := length_hexNibbles bs
    simp only [hexNibbles, List.flatMap_cons, List.length_append] at ih ⊢
    simp [ih]
    omega

/-- Claim C3, evaluated: the file name length is `2 * (key length + 20)` —
it is not fixed (40 for the empty key, 44 for a 2-byte key) and it grows
without bound with the key (3112 characters for the repository's own
1536-byte test key), contradicting the bounded-length part of the claim and
the repository's `TestItem_GetFilePath` (which demands at most 38
characters).  `emptyDigest` stands for the 20-byte SHA-1 digest of the empty
message that Go's `Sum` appends to the raw key bytes. -/
theorem claim_c3_filename_length :
    (keyToFileName (List.replicate 20 0) []).length = 40 ∧
    (keyToFileName (List.replicate 20 0) [97, 98]).length = 44 ∧
    (keyToFileName (List.replicate 20 0) (List.replicate 1536 102)).length = 3112 := by
  refine ⟨by decide, by decide, ?_⟩
  rw [keyToFileName, length_hexNibbles, List.length_append, List.length_replicate,
    List.length_replicate]

/-- Closed form of `Item.isExpired` on an existing file: "not set" (stored
field 0) is an error, otherwise compare the reconstructed instant with now. -/
theorem itemIsExpired_eq (f : Bytes) (nowNs : Int) :
    itemIsExpired (some f) nowNs =
      if getExpiresAtUnixMs f = 0 then (false, some Err.expirationDataNotAvailable)
      else (decide ((GetExpiresAt f).1 < nowNs), none) := by
  rw [itemIsExpired, itemExpiresAt]
  simp only [GetExpiresAt]
  by_cases hms : getExpiresAtUnixMs f = 0
  · simp [hms]
  · simp [hms]

/-- Claim C6: `Pool.GetItem` deletes the backing file iff the item exists
and its stored expiration has passed per the code's comparison (field
non-zero and reconstructed instant strictly before now); otherwise the state
is untouched; `HasItem` is `GetItem(key).IsHit()` (same side effect); an
item whose expiration was never set (stored field 0) is never deleted by
lookup, whatever the current time. -/
theorem claim_c6_lazy_eviction (f : Bytes) (st : Option Bytes) (nowNs : Int) :
    (poolGetItem (some f) nowNs = none ↔
      getExpiresAtUnixMs f ≠ 0 ∧ (GetExpiresAt f).1 < nowNs) ∧
    (poolGetItem (some f) nowNs = none ∨ poolGetItem (some f) nowNs = some f) ∧
    poolGetItem none nowNs = none ∧
    poolHasItem st nowNs = isHit (poolGetItem st nowNs) ∧
    (getExpiresAtUnixMs f = 0 → poolGetItem (some f) nowNs = some f) := by
  refine ⟨?_, ?_, rfl, rfl, ?_⟩
  · by_cases hms : getExpiresAtUnixMs f = 0
    · simp [poolGetItem, isHit, itemIsExpired_eq, hms]
    · by_cases hlt : (GetExpiresAt f).1 < nowNs
      · simp [poolGetItem, isHit, itemIsExpired_eq, hms, hlt]
      · simp [poolGetItem, isHit, itemIsExpired_eq, hms, hlt]
  · by_cases hms : getExpiresAtUnixMs f = 0
    · simp [poolGetItem, isHit, itemIsExpired_eq, hms]
    · by_cases hlt : (GetExpiresAt f).1 < nowNs
      · simp [poolGetItem, isHit, itemIsExpired_eq, hms, hlt]
      · simp [poolGetItem, isHit, itemIsExpired_eq, hms, hlt]
  · intro hms
    simp [poolGetItem, isHit, itemIsExpired_eq, hms]

/-- Witness for C6: an all-zero entry (expiration never set) survives
lookup. -/
theorem claim_c6_lazy_eviction_witness :
    poolGetItem (some (List.replicate 84 0)) 5 = some (List.replicate 84 0) :=
  (claim_c6_lazy_eviction (List.replicate 84 0) none 5).2.2.2.2 (by decide)

/-- Claim C8: `Item.IsExpired` returns `(true, nil)` iff a stored expiration
is present (file exists and field non-zero) and its instant is strictly
earlier than now; `(false, nil)` iff present and not earlier; and the
`ExpirationDataNotAvailable` error exactly when the expiration cannot be
read (missing file or stored-zero "not set"). -/
theorem claim_c8_isExpired (st : Option Bytes) (nowNs : Int) :
    (itemIsExpired st nowNs = (true, none) ↔
      ∃ f, st = some f ∧ getExpiresAtUnixMs f ≠ 0 ∧ (GetExpiresAt f).1 < nowNs) ∧
    (itemIsExpired st nowNs = (false, none) ↔
      ∃ f, st = some f ∧ getExpiresAtUnixMs f ≠ 0 ∧
        ¬(GetExpiresAt f).1 < nowNs) ∧
    ((itemIsExpired st nowNs).2 = some Err.expirationDataNotAvailable ↔
      st = none ∨ ∃ f, st = some f ∧ getExpiresAtUnixMs f = 0) := by
  cases st with
  | none => simp [itemIsExpired, itemExpiresAt]
  | some f =>
    rw [itemIsExpired_eq]
    by_cases hms : getExpiresAtUnixMs f = 0
    · simp [hms]
    · by_cases hlt : (GetExpiresAt f).1 < nowNs
      · simp [hms, hlt]
      · simp [hms, hlt]
        omega

/-- Witness for C8: an entry with stored millisecond value 1 is expired at
now = 2·10⁶ ns. -/
theorem claim_c8_isExpired_witness :
    itemIsExpired (some (setExpiresAtUnixMs (List.replicate 84 0) 1)) 2000000 =
      (true, none) :=
  (claim_c8_isExpired (some (setExpiresAtUnixMs (List.replicate 84 0) 1))
    2000000).1.mpr ⟨_, rfl, by decide, by decide⟩

theorem lastErrOf_eq_none (l : List DirEntry) : lastErrOf l = none ↔ l = [] := by
  cases l with
  | nil => simp [lastErrOf]
  | cons e rest =>
    cases hrest : lastErrOf rest <;> simp [lastErrOf, hrest]

theorem clearGo_spec (sig : Bytes) :
    ∀ (dir kept : List DirEntry) (le : Option Nat),
      clearGo sig dir kept le =
        (kept ++ clearKept sig dir,
          match lastErrOf (clearFails sig dir) with
          | some n => some n
          | none => le) := by
  intro dir
  induction dir with
  | nil =>
    intro kept le
    simp [clearGo, clearKept, clearFails, lastErrOf]
  | cons e rest ih =>
    intro kept le
    rw [clearGo]
    by_cases hm : SignatureMatched sig e.content
    · by_cases hr : e.rmFails
      · rw [if_pos hm, if_pos hr, ih]
        have hk : clearKept sig (e :: rest) = e :: clearKept sig rest := by
          simp [clearKept, List.filter_cons, hm, hr]
        have hf : clearFails sig (e :: rest) = e :: clearFails sig rest := by
          simp [clearFails, List.filter_cons, hm, hr]
        rw [hk, hf, lastErrOf]
        cases hcase : lastErrOf (clearFails sig rest) <;> simp [hcase]
      · rw [if_pos hm, if_neg hr, ih]
        have hk : clearKept sig (e :: rest) = clearKept sig rest := by
          simp [clearKept, List.filter_cons, hm, hr]
        have hf : clearFails sig (e :: rest) = clearFails sig rest := by
          simp [clearFails, List.filter_cons, hm, hr]
        rw [hk, hf]
    · rw [if_neg hm, ih]
      have hk : clearKept sig (e :: rest) = e :: clearKept sig rest := by
        simp [clearKept, List.filter_cons, hm]
      have hf : clearFails sig (e :: rest) = clearFails sig rest := by
        simp [clearFails, List.filter_cons, hm]
      rw [hk, hf]
      simp

/-- Claim C7: `Clear` walks the directory's immediate entries, removes
exactly those whose signature matches the pool's (a failed removal leaves
the file), never touches a file whose signature does not match, keeps
walking past failures, and returns the last removal error with a false
success flag — or `(true, nil)` when nothing failed. -/
theorem claim_c7_clear (sig : Bytes) (dir : List DirEntry) :
    (poolClear sig dir).1 = clearKept sig dir ∧
    (poolClear sig dir).2.2 = lastErrOf (clearFails sig dir) ∧
    ((poolClear sig dir).2.1 = true ↔ clearFails sig dir = []) ∧
    (∀ e ∈ dir, SignatureMatched sig e.content = false →
      e ∈ (poolClear sig dir).1) := by
  have hgo := clearGo_spec sig dir [] none
  have h1 : (poolClear sig dir).1 = clearKept sig dir := by
    simp only [poolClear, hgo, List.nil_append]
  have h2 : (poolClear sig dir).2.2 = lastErrOf (clearFails sig dir) := by
    simp only [poolClear, hgo]
    cases hcase : lastErrOf (clearFails sig dir) <;> simp [hcase]
  refine ⟨h1, h2, ?_, ?_⟩
  · have h3 : (poolClear sig dir).2.1 = ((poolClear sig dir).2.2).isNone := by
      simp only [poolClear]
    rw [h3, h2]
    cases hcase : lastErrOf (clearFails sig dir) with
    | none => simp [(lastErrOf_eq_none _).mp hcase]
    | some n =>
      have : clearFails sig dir ≠ [] := by
        intro hnil
        rw [hnil] at hcase
        simp [lastErrOf] at hcase
      simp [hcase, this]
  · intro e he hsig
    rw [h1, clearKept]
    exact List.mem_filter.mpr ⟨he, by simp [hsig]⟩

/-- Witness for C7: a stray file (wrong signature) in front of a real cache
entry survives `Clear` while the walk continues past it. -/
theorem claim_c7_clear_witness :
    (⟨0, [1, 2, 3], false⟩ : DirEntry) ∈
      (poolClear DefaultSignature
        [⟨0, [1, 2, 3], false⟩,
         ⟨1, DefaultSignature ++ List.replicate 76 0, false⟩]).1 :=
  (claim_c7_clear DefaultSignature
    [⟨0, [1, 2, 3], false⟩, ⟨1, DefaultSignature ++ List.replicate 76 0, false⟩]).2.2.2
    ⟨0, [1, 2, 3], false⟩ (by decide) (by decide)

/-- Claim C9: `Pool.Put` writes the item's data first and the expiration
second; when the expiration write fails the returned error is the
expiration failure while the data is already persisted on disk (readable
back with a passing checksum — nothing is rolled back); on the success path
the expiration write is applied to the very file the data write produced. -/
theorem claim_c9_put_partial (hash : Hash) (src : Bytes) (tNs : Int)
    (h20 : ∀ x, (hash x).length = 20) :
    ∃ f1, poolPut hash none src tNs true = (some f1, some Err.fileWrite) ∧
      GetData hash f1 = (src, none) ∧
      poolPut hash none src tNs false = (some (SetExpiresAt f1 tNs), none) := by
  have hset := itemSet_fresh hash src (h20 []) (h20 src)
  refine ⟨DefaultSignature ++ List.replicate 56 0 ++ hash src ++ src, ?_, ?_, ?_⟩
  · simp only [poolPut, hset]
    rfl
  · rw [GetData_eq, canon_drop84 _ _ _ (by decide) (h20 src),
      canon_sha _ _ _ (by decide) (h20 src)]
    simp
  · simp only [poolPut, hset, itemSetExpiresAt, openOrCreateFile]
    rfl

/-- Witness for C9 at a concrete hash, payload and timestamp. -/
theorem claim_c9_put_partial_witness :
    ∃ f1, poolPut mockHash none [3, 4] 7 true = (some f1, some Err.fileWrite) ∧
      GetData mockHash f1 = ([3, 4], none) ∧
      poolPut mockHash none [3, 4] 7 false = (some (SetExpiresAt f1 7), none) :=
  claim_c9_put_partial mockHash [3, 4] 7 mockHash_length

/-- Claim C10, counterexample: for `t` one nanosecond before the epoch
(`t.UnixNano() = -1`, strictly pre-epoch), the stored value
`uint64(-1 / 10^6) = uint64(0)` is 0 — the "not set" sentinel — so the
subsequent `GetExpiresAt` DOES return the "value was not set" error,
contradicting the claim's "returns no 'not set' error" for every pre-epoch
time. -/
theorem claim_c10_counterexample :
    ((-1 : Int) < 0) ∧
    toUint64 (goDiv (-1) 1000000) = 0 ∧
    (GetExpiresAt (SetExpiresAt (List.replicate 84 0) (-1))).2 =
      some Err.expirationNotSet := by
  decide

set_option maxHeartbeats 1000000 in
/-- Claim C10, amended: for times at least one millisecond before the epoch
(`t.UnixNano() ≤ -10^6`, within `int64` range) the stored `uint64` wraps to
the huge value `2^64 - |UnixNano| / 10^6`; `GetExpiresAt` then returns no
"not set" error, and the reconstruction `int64(ms * 10^6)` wraps a second
time, cancelling the first wrap: the reconstructed instant is exactly the
original truncated toward zero to millisecond precision — a faithful
millisecond round-trip, not an unrelated instant.  (Times strictly inside
the last millisecond before the epoch store 0 and are reported "not set",
per the counterexample.) -/
theorem claim_c10_amended (tNs : Int) (f : Bytes)
    (hlo : -(2 ^ 63) ≤ tNs) (hhi : tNs ≤ -1000000) :
    getExpiresAtUnixMs (SetExpiresAt f tNs) = pow64 - tNs.natAbs / 1000000 ∧
    2 ^ 63 < getExpiresAtUnixMs (SetExpiresAt f tNs) ∧
    (GetExpiresAt (SetExpiresAt f tNs)).2 = none ∧
    (GetExpiresAt (SetExpiresAt f tNs)).1 = goDiv tNs 1000000 * 1000000 := by
  set q := tNs.natAbs / 1000000 with hq
  have hq1 : 1 ≤ q := by omega
  have hqa : q * 1000000 ≤ tNs.natAbs := by omega
  have hna : tNs.natAbs ≤ 2 ^ 63 := by omega
  have hq63 : q * 1000000 < 2 ^ 63 := by omega
  have hs1 : Int.sign 1000000 = 1 := rfl
  have hs2 : Int.natAbs 1000000 = 1000000 := rfl
  have hgod : goDiv tNs 1000000 = -(q : Int) := by
    rw [goDiv, Int.sign_eq_neg_one_iff_neg.mpr (by omega), hs1, hs2, ← hq]
    ring
  have hstored : toUint64 (goDiv tNs 1000000) = 2 ^ 64 - q := by
    rw [hgod, toUint64]
    simp only [pow64]
    omega
  have hget : getExpiresAtUnixMs (SetExpiresAt f tNs) = 2 ^ 64 - q := by
    rw [SetExpiresAt, getExpiresAt_set, hstored]
    simp only [pow64]
    omega
  refine ⟨?_, ?_, ?_, ?_⟩
  · rw [hget]
    simp only [pow64]
  · rw [hget]
    omega
  · simp only [GetExpiresAt]
    rw [hget, if_neg (by omega)]
  · simp only [GetExpiresAt]
    have harg : (2 ^ 64 - q) * 1000000 % 2 ^ 64 = 2 ^ 64 - q * 1000000 := by
      rw [Nat.sub_mul]
      have h1 : 2 ^ 64 * 1000000 - q * 1000000 =
          2 ^ 64 * 999999 + (2 ^ 64 - q * 1000000) := by omega
      rw [h1, Nat.mul_add_mod]
      exact Nat.mod_eq_of_lt (by omega)
    rw [hget]
    simp only [pow64]
    rw [harg, hgod, toInt64]
    simp only [pow64]
    have hsm : (2 ^ 64 - q * 1000000) % 2 ^ 64 = 2 ^ 64 - q * 1000000 :=
      Nat.mod_eq_of_lt (by omega)
    rw [hsm]
    split
    · omega
    · omega

/-- Witness for the amended C10 at `t.UnixNano() = -5·10^6` (5 ms before the
epoch). -/
theorem claim_c10_amended_witness :
    2 ^ 63 < getExpiresAtUnixMs (SetExpiresAt (List.replicate 84 0) (-5000000)) ∧
    (GetExpiresAt (SetExpiresAt (List.replicate 84 0) (-5000000))).2 = none ∧
    (GetExpiresAt (SetExpiresAt (List.replicate 84 0) (-5000000))).1 =
      goDiv (-5000000) 1000000 * 1000000 :=
  (claim_c10_amended (-5000000) (List.replicate 84 0) (by decide) (by decide)).2

end Filecache
